import Mathlib

set_option linter.unreachableTactic false
set_option linter.unusedTactic false
set_option linter.unnecessarySeqFocus false

/-!
Shallow embedding of `joined_counts` from `joined_freqs_from_bam.py`
(repository compbio-utils).

Python dictionaries are modelled as association lists with distinct keys:
`dget` is `d[k]` (as an `Option`), `upsert` is `d[k] = v` (replacing any
existing binding in place), `dmem` is `d.has_key(k)`.  Python exceptions
(`AssertionError`, `KeyError`, `IndexError`) are modelled with
`Except String`.
-/

section Dict

variable {K V : Type} [DecidableEq K]

/-- Lookup in a Python-style dict: first binding for the key (keys built by
`upsert` are distinct, so this is the binding). -/
def dget : List (K × V) → K → Option V
  | [], _ => none
  | (k0, v0) :: rest, k => if k0 = k then some v0 else dget rest k

/-- `d[k] = v`: replace the existing binding in place, or append. -/
def upsert : List (K × V) → K → V → List (K × V)
  | [], k, v => [(k, v)]
  | (k0, v0) :: rest, k, v =>
    if k0 = k then (k, v) :: rest else (k0, v0) :: upsert rest k v

/-- `d.has_key(k)`. -/
def dmem (m : List (K × V)) (k : K) : Bool :=
  (dget m k).isSome

/-- `d.keys()`. -/
def dkeys (m : List (K × V)) : List K :=
  m.map Prod.fst

end Dict

/-- One aligned record, with the attributes `joined_counts` consumes from a
pysam `alnread`: flags, mapping quality, query name, the aligned
(query-offset, reference-offset) pairs (either side may be absent at a gap),
and the clipped query sequence. -/
structure AlnRead where
  is_unmapped : Bool
  is_duplicate : Bool
  is_paired : Bool
  is_proper_pair : Bool
  is_qcfail : Bool
  is_secondary : Bool
  mapq : Int
  qname : String
  aligned_pairs : List (Option Nat × Option Int)
  query : List Char
deriving Repr, DecidableEq

/-- The five rejection counters of `joined_counts`
(`num_dups`, `num_anomalous`, `num_qcfail`, `num_secondary`,
`num_below_mq_min`). -/
structure RejCounts where
  num_dups : Nat
  num_anomalous : Nat
  num_qcfail : Nat
  num_secondary : Nat
  num_below_mq_min : Nat
deriving Repr, DecidableEq

def RejCounts.init : RejCounts := ⟨0, 0, 0, 0, 0⟩

/-- The rejection reasons, one per counter. -/
inductive RejectReason where
  | duplicate
  | anomalous_pair
  | qc_fail
  | secondary
  | low_mapping_quality
deriving Repr, DecidableEq

/-- Which counter a reason increments. -/
def counterOf (c : RejCounts) : RejectReason → Nat
  | .duplicate => c.num_dups
  | .anomalous_pair => c.num_anomalous
  | .qc_fail => c.num_qcfail
  | .secondary => c.num_secondary
  | .low_mapping_quality => c.num_below_mq_min

/-- Increment the counter of a reason. -/
def tally (c : RejCounts) : RejectReason → RejCounts
  | .duplicate => { c with num_dups := c.num_dups + 1 }
  | .anomalous_pair => { c with num_anomalous := c.num_anomalous + 1 }
  | .qc_fail => { c with num_qcfail := c.num_qcfail + 1 }
  | .secondary => { c with num_secondary := c.num_secondary + 1 }
  | .low_mapping_quality => { c with num_below_mq_min := c.num_below_mq_min + 1 }

/-- The chain of `if ...: ...; continue` checks of `joined_counts`, in source
order: duplicate, then paired-and-not-proper-pair, then qcfail, then
secondary, then `mapq < min_mq`; `none` means the record is accepted. -/
def rejectReason (min_mq : Int) (r : AlnRead) : Option RejectReason :=
  if r.is_duplicate then some .duplicate
  else if r.is_paired && !r.is_proper_pair then some .anomalous_pair
  else if r.is_qcfail then some .qc_fail
  else if r.is_secondary then some .secondary
  else if r.mapq < min_mq then some .low_mapping_quality
  else none

/-- `dict(list-of-pairs)`: fold the pairs into a dict, later pairs
overwriting earlier ones for the same key. -/
def dictOfPairs : List (Int × Char) → List (Int × Char) → List (Int × Char)
  | m, [] => m
  | m, (k, v) :: rest => dictOfPairs (upsert m k v) rest

/-- `pos_nt_map = dict([(rpos, alnread.query[qpos]) for (qpos, rpos) in
alnread.aligned_pairs if qpos!=None and rpos!=None])`.  The query indexing
`alnread.query[qpos]` is total here (`getD` with a dummy default); pysam
guarantees the offset is in range. -/
def posNtMap (r : AlnRead) : List (Int × Char) :=
  dictOfPairs []
    (r.aligned_pairs.filterMap fun pr =>
      match pr with
      | (some q, some rp) => some (rp, r.query.getD q '?')
      | _ => none)

/-- `if alnread.qname[-2] in [".", "/", "#"]: read_id_base = alnread.qname[:-2]
else: read_id_base = alnread.qname`.  Python raises `IndexError` on
`qname[-2]` when the name has fewer than two characters; that is the `none`
case. -/
def deriveLogicalId (qname : String) : Option String :=
  if 2 ≤ qname.length then
    if qname.data.getD (qname.length - 2) '?' ∈ ['.', '/', '#'] then
      some { data := qname.data.take (qname.length - 2) }
    else
      some qname
  else
    none

/-- `pos_overlap`: position → (read_id → base). -/
abbrev PosOverlap : Type := List (Int × List (String × Char))

/-- `pos_overlap[pos][read_id] = b`, creating `pos_overlap[pos] = dict()`
first when absent. -/
def writeObs (po : PosOverlap) (pos : Int) (rid : String) (b : Char) :
    PosOverlap :=
  upsert po pos (upsert ((dget po pos).getD []) rid b)

/-- `for pos in positions: if pos_nt_map.has_key(pos): ...
pos_overlap[pos][read_id_base] = pos_nt_map[pos]`. -/
def recordPositions (pnm : List (Int × Char)) (rid : String) :
    PosOverlap → List Int → PosOverlap
  | po, [] => po
  | po, pos :: rest =>
    recordPositions pnm rid
      (match dget pnm pos with
       | some b => writeObs po pos rid b
       | none => po) rest

/-- The state built by the scan over the fetched records. -/
structure ScanState where
  rej : RejCounts
  pos_overlap : PosOverlap

def ScanState.init : ScanState := ⟨RejCounts.init, []⟩

/-- The body of the `for alnread in sam.fetch(...)` loop for one record:
the `assert not alnread.is_unmapped`, then the rejection chain (tallying the
first reason that fires and skipping the rest of the body), then the
read-id derivation, then the recording of bases at the requested
positions. -/
def processRead (min_mq : Int) (positions : List Int) (st : ScanState)
    (r : AlnRead) : Except String ScanState :=
  if r.is_unmapped then .error "AssertionError"
  else
    match rejectReason min_mq r with
    | some reason => .ok { st with rej := tally st.rej reason }
    | none =>
      match deriveLogicalId r.qname with
      | none => .error "IndexError"
      | some rid =>
        .ok { st with
              pos_overlap :=
                recordPositions (posNtMap r) rid st.pos_overlap positions }

/-- The whole fetch loop over the records the store yields. -/
def scanReads (min_mq : Int) (positions : List Int) :
    ScanState → List AlnRead → Except String ScanState
  | st, [] => .ok st
  | st, r :: rest =>
    match processRead min_mq positions st r with
    | .error e => .error e
    | .ok st1 => scanReads min_mq positions st1 rest

/-- The intersection fold:
`for pos in positions[1:]: overlapping_all =
overlapping_all.intersection(pos_overlap[pos].keys())`.  A position with no
entry in `pos_overlap` raises `KeyError`. -/
def interAll (po : PosOverlap) : List String → List Int →
    Except String (List String)
  | acc, [] => .ok acc
  | acc, pos :: rest =>
    match dget po pos with
    | none => .error "KeyError"
    | some m => interAll po (acc.filter fun rid => dmem m rid) rest

/-- `overlapping_all = frozenset(pos_overlap[positions[0]].keys())`, then the
intersection fold over the remaining positions.  `pos_overlap[positions[0]]`
raises `KeyError` when that position was never covered. -/
def overlappingAll (po : PosOverlap) : List Int →
    Except String (List String)
  | [] => .error "IndexError"
  | p :: rest =>
    match dget po p with
    | none => .error "KeyError"
    | some m0 => interAll po (dkeys m0) rest

/-- `counts[key] = counts.get(key, 0) + 1`. -/
def bump (m : List (String × Nat)) (k : String) : List (String × Nat) :=
  upsert m k ((dget m k).getD 0 + 1)

/-- `key = ''.join([pos_overlap[p][read_id] for p in positions])`.  The
lookups are total here (`getD` with dummy defaults); for a read id drawn
from `overlapping_all` every lookup succeeds. -/
def jointKey (po : PosOverlap) (positions : List Int) (rid : String) :
    String :=
  { data :=
      positions.map fun p =>
        (dget ((dget po p).getD []) rid).getD '?' }

/-- `for read_id in overlapping_all: key = ...; counts[key] += 1`. -/
def buildCounts (po : PosOverlap) (positions : List Int) :
    List (String × Nat) → List String → List (String × Nat)
  | counts, [] => counts
  | counts, rid :: rest =>
    buildCounts po positions (bump counts (jointKey po positions rid)) rest

/-- Sum of the values of a counts dict (`sum(counts.values())`). -/
def sumVals (m : List (String × Nat)) : Nat :=
  (m.map Prod.snd).sum

/-- Everything `joined_counts` computes: the rejection counters, the final
`pos_overlap`, `overlapping_all` and the returned `counts` table. -/
structure JoinedResult where
  rej : RejCounts
  pos_overlap : PosOverlap
  overlapping_all : List String
  counts : List (String × Nat)

/-- `joined_counts(sam, chrom, positions, min_mq)`, with the fetched record
stream passed in directly.  The leading
`assert len(positions)>=2 and min(positions)>=0` is the outer guard. -/
def joined_counts (reads : List AlnRead) (positions : List Int)
    (min_mq : Int) : Except String JoinedResult :=
  if 2 ≤ positions.length ∧ ∀ p ∈ positions, 0 ≤ p then
    match scanReads min_mq positions ScanState.init reads with
    | .error e => .error e
    | .ok st =>
      match overlappingAll st.pos_overlap positions with
      | .error e => .error e
      | .ok l =>
        .ok { rej := st.rej
              pos_overlap := st.pos_overlap
              overlapping_all := l
              counts := buildCounts st.pos_overlap positions [] l }
  else
    .error "AssertionError"

/-- A dict has distinct keys (every dict built by `upsert` from `[]` does). -/
def nodupKeys {K V : Type} (m : List (K × V)) : Prop :=
  (dkeys m).Nodup

/-- Invariant of the `pos_overlap` built by the scan: the outer dict and all
inner dicts have distinct keys. -/
def POInv (po : PosOverlap) : Prop :=
  nodupKeys po ∧ ∀ kv ∈ po, nodupKeys kv.2

/-- A clean accepted read covering reference position 0 only (no flags set,
mapping quality 30, query name "rd"). -/
def exRead1 : AlnRead :=
  { is_unmapped := false, is_duplicate := false, is_paired := false,
    is_proper_pair := false, is_qcfail := false, is_secondary := false,
    mapq := 30, qname := "rd", aligned_pairs := [(some 0, some 0)],
    query := ['A'] }

/-- A clean accepted read covering reference positions 0 and 1. -/
def exRead2 : AlnRead :=
  { is_unmapped := false, is_duplicate := false, is_paired := false,
    is_proper_pair := false, is_qcfail := false, is_secondary := false,
    mapq := 30, qname := "rd",
    aligned_pairs := [(some 0, some 0), (some 1, some 1)],
    query := ['A', 'C'] }

/-- A read flagged as duplicate (and nothing else). -/
def exDup : AlnRead :=
  { exRead1 with is_duplicate := true }

theorem mem_dkeys {K V : Type} {m : List (K × V)} {k : K} :
    k ∈ dkeys m ↔ ∃ v, (k, v) ∈ m := by
  constructor
  · intro h
    rcases List.mem_map.mp h with ⟨kv, hmem, hfst⟩
    exact ⟨kv.2, by simpa [← hfst] using hmem⟩
  · rintro ⟨v, hv⟩
    exact List.mem_map.mpr ⟨(k, v), hv, rfl⟩

section DictLemmas

variable {K V : Type} [DecidableEq K]

theorem dget_upsert (m : List (K × V)) (k : K) (v : V) (k1 : K) :
    dget (upsert m k v) k1 = if k = k1 then some v else dget m k1 := by
  induction m with
  | nil => simp [upsert, dget]
  | cons kv0 rest ih =>
    obtain ⟨k0, v0⟩ := kv0
    by_cases h0 : k0 = k
    · subst h0
      by_cases h1 : k0 = k1 <;> simp [upsert, dget, h1]
    · by_cases h1 : k0 = k1
      · subst h1
        have hk : ¬k = k0 := fun hh => h0 hh.symm
        simp [upsert, dget, h0, hk]
      · simp [upsert, dget, h0, h1, ih]

theorem mem_upsert {kv : K × V} {m : List (K × V)} {k : K} {v : V}
    (h : kv ∈ upsert m k v) : kv = (k, v) ∨ kv ∈ m := by
  induction m with
  | nil => simpa [upsert] using h
  | cons kv0 rest ih =>
    obtain ⟨k0, v0⟩ := kv0
    by_cases h0 : k0 = k
    · subst h0
      rcases List.mem_cons.mp (by simpa [upsert] using h) with h1 | h1
      · exact Or.inl h1
      · exact Or.inr (List.mem_cons_of_mem _ h1)
    · rcases List.mem_cons.mp (by simpa [upsert, h0] using h) with h1 | h1
      · exact Or.inr (by simp [h1])
      · rcases ih h1 with h2 | h2
        · exact Or.inl h2
        · exact Or.inr (List.mem_cons_of_mem _ h2)

theorem dget_mem {m : List (K × V)} {k : K} {v : V} (h : dget m k = some v) :
    (k, v) ∈ m := by
  induction m with
  | nil => simp [dget] at h
  | cons kv0 rest ih =>
    obtain ⟨k0, v0⟩ := kv0
    by_cases h0 : k0 = k
    · subst h0
      simp [dget] at h
      simp [h]
    · simp only [dget, if_neg h0] at h
      exact List.mem_cons_of_mem _ (ih h)

theorem mem_dkeys_upsert {m : List (K × V)} {k k1 : K} {v : V}
    (h : k1 ∈ dkeys (upsert m k v)) : k1 = k ∨ k1 ∈ dkeys m := by
  rcases mem_dkeys.mp h with ⟨w, hw⟩
  rcases mem_upsert hw with h1 | h1
  · exact Or.inl (congrArg Prod.fst h1)
  · exact Or.inr (mem_dkeys.mpr ⟨w, h1⟩)

theorem nodupKeys_upsert {m : List (K × V)} (h : nodupKeys m) (k : K)
    (v : V) : nodupKeys (upsert m k v) := by
  induction m with
  | nil => simp [upsert, nodupKeys, dkeys]
  | cons kv0 rest ih =>
    obtain ⟨k0, v0⟩ := kv0
    have h1 : k0 ∉ dkeys rest ∧ nodupKeys rest := by
      simpa [nodupKeys, dkeys] using h
    by_cases h0 : k0 = k
    · subst h0
      simpa [upsert, nodupKeys, dkeys] using h1
    · have h2 : k0 ∉ dkeys (upsert rest k v) := by
        intro hmem
        rcases mem_dkeys_upsert hmem with h3 | h3
        · exact h0 h3
        · exact h1.1 h3
      have h3 := ih h1.2
      simp only [upsert, if_neg h0, nodupKeys, dkeys, List.map_cons,
        List.nodup_cons]
      exact ⟨by simpa [dkeys] using h2, by simpa [nodupKeys, dkeys] using h3⟩

end DictLemmas

theorem recordPositions_preserve (pnm : List (Int × Char)) (rid : String)
    (pos : Int) (ps : List Int) (po : PosOverlap) (h : pos ∉ ps) :
    dget (recordPositions pnm rid po ps) pos = dget po pos := by
  induction ps generalizing po with
  | nil => rfl
  | cons q rest ih =>
    have hq : ¬q = pos := by
      intro hh
      exact h (hh ▸ List.mem_cons_self q rest)
    have hrest : pos ∉ rest := fun hh => h (List.mem_cons_of_mem _ hh)
    rw [recordPositions, ih _ hrest]
    cases hg : dget pnm q
    · rfl
    · simp [writeObs, dget_upsert, hq]

theorem recordPositions_write (pnm : List (Int × Char)) (rid : String)
    (pos : Int) (b : Char) (ps : List Int) (po : PosOverlap)
    (hmem : pos ∈ ps) (hb : dget pnm pos = some b) :
    dget ((dget (recordPositions pnm rid po ps) pos).getD []) rid =
      some b := by
  induction ps generalizing po with
  | nil => cases hmem
  | cons q rest ih =>
    by_cases hr : pos ∈ rest
    · rw [recordPositions]
      exact ih _ hr
    · have hpq : q = pos := by
        rcases List.mem_cons.mp hmem with h1 | h1
        · exact h1.symm
        · exact absurd h1 hr
      subst hpq
      rw [recordPositions, recordPositions_preserve _ _ _ _ _ hr]
      simp [hb, writeObs, dget_upsert]

theorem dget_dictOfPairs_isSome (l : List (Int × Char))
    (m : List (Int × Char)) (k : Int) :
    (dget (dictOfPairs m l) k).isSome ↔
      (∃ v, (k, v) ∈ l) ∨ (dget m k).isSome := by
  induction l generalizing m with
  | nil => simp [dictOfPairs]
  | cons kv rest ih =>
    obtain ⟨a, b⟩ := kv
    rw [dictOfPairs, ih]
    by_cases ha : a = k
    · subst ha
      constructor
      · intro _
        exact Or.inl ⟨b, List.mem_cons_self _ _⟩
      · intro _
        exact Or.inr (by simp [dget_upsert])
    · have hmem : ∀ v : Char, ((k, v) ∈ (a, b) :: rest) ↔ (k, v) ∈ rest := by
        intro v
        constructor
        · intro hh
          rcases List.mem_cons.mp hh with h1 | h1
          · exact absurd (congrArg Prod.fst h1) fun hh2 => ha hh2.symm
          · exact h1
        · exact fun hh => List.mem_cons_of_mem _ hh
      simp [dget_upsert, ha, hmem]

theorem sumVals_bump (m : List (String × Nat)) (k : String) :
    sumVals (bump m k) = sumVals m + 1 := by
  induction m with
  | nil => simp [bump, upsert, dget, sumVals]
  | cons kv0 rest ih =>
    obtain ⟨k0, v0⟩ := kv0
    by_cases h0 : k0 = k
    · subst h0
      simp [bump, upsert, dget, sumVals]
      omega
    · have h1 : bump ((k0, v0) :: rest) k = (k0, v0) :: bump rest k := by
        simp [bump, upsert, dget, h0]
      rw [h1]
      have h2 : sumVals ((k0, v0) :: bump rest k) =
          v0 + sumVals (bump rest k) := by simp [sumVals]
      have h3 : sumVals ((k0, v0) :: rest) = v0 + sumVals rest := by
        simp [sumVals]
      rw [h2, h3, ih]
      omega

/-- C3: for an accepted record, the position-to-base map keeps exactly the
aligned pairs whose query offset and reference offset are both defined;
offsets equal to 0 get no special treatment, so a base aligned at reference
offset 0 (or query offset 0) is recorded like any other. -/
theorem C3_kept_pairs_iff_both_defined (r : AlnRead) (rp : Int) :
    (dget (posNtMap r) rp).isSome ↔
      ∃ q, (some q, some rp) ∈ r.aligned_pairs := by
  rw [posNtMap, dget_dictOfPairs_isSome]
  constructor
  · intro h
    rcases h with h | h
    · rcases h with ⟨v, hv⟩
      rcases List.mem_filterMap.mp hv with ⟨pr, hpr, hf⟩
      obtain ⟨oq, orp⟩ := pr
      cases oq with
      | none => simp at hf
      | some q =>
        cases orp with
        | none => simp at hf
        | some rp2 =>
          simp only [Option.some.injEq, Prod.mk.injEq] at hf
          exact ⟨q, hf.1 ▸ hpr⟩
    · simp [dget] at h
  · rintro ⟨q, hq⟩
    exact Or.inl ⟨r.query.getD q '?',
      List.mem_filterMap.mpr ⟨(some q, some rp), hq, rfl⟩⟩

/-- C4 counterexample: for the length-1 query name "A" the derivation does
not return the full query name unchanged (it fails, modelling Python's
IndexError on qname[-2]). -/
theorem C4_counterexample : ¬(deriveLogicalId "A" = some "A") := by decide

/-- C4 (amended to query names of length ≥ 2, i.e. any name of the form
s ++ [c, d]): the LogicalReadId is the name with its final two characters
stripped when the character two positions before the end is '.', '/' or
'#', and the full name unchanged otherwise. -/
theorem C4_logical_id_strip (s : String) (c d : Char) :
    deriveLogicalId (s ++ { data := [c, d] }) =
      some (if c = '.' ∨ c = '/' ∨ c = '#' then s
            else s ++ { data := [c, d] }) := by
  have hdata : (s ++ ({ data := [c, d] } : String)).data = s.data ++ [c, d] :=
    String.data_append s { data := [c, d] }
  have hlen : (s ++ ({ data := [c, d] } : String)).length =
      s.data.length + 2 := by
    show (s ++ ({ data := [c, d] } : String)).data.length = s.data.length + 2
    rw [hdata]
    simp
  unfold deriveLogicalId
  rw [hlen, hdata]
  rw [if_pos (by omega)]
  have hidx : s.data.length + 2 - 2 = s.data.length := by omega
  rw [hidx]
  rw [List.getD_append_right _ _ _ _ (le_refl _)]
  simp only [Nat.sub_self]
  have hgd : List.getD [c, d] 0 '?' = c := rfl
  rw [hgd]
  by_cases hc : c = '.' ∨ c = '/' ∨ c = '#'
  · have hmem : c ∈ ['.', '/', '#'] := by simpa using hc
    rw [if_pos hmem, if_pos hc]
    rw [List.take_left]
  · have hmem : c ∉ (['.', '/', '#'] : List Char) := by simpa using hc
    rw [if_neg hmem, if_neg hc]

/-- C5: writes to `pos_overlap` for the same (position, logical id) pair
silently replace the earlier value: after recording a second record's bases
(`pnm2`), the stored base at (pos, rid) is the second record's base,
whatever the first record (`pnm1`) wrote there; no error is possible
(`recordPositions` is total). -/
theorem C5_later_write_wins (po : PosOverlap) (positions : List Int)
    (pos : Int) (rid : String) (pnm1 pnm2 : List (Int × Char)) (b2 : Char)
    (h1 : pos ∈ positions) (h2 : dget pnm2 pos = some b2) :
    dget ((dget (recordPositions pnm2 rid
        (recordPositions pnm1 rid po positions) positions) pos).getD [])
      rid = some b2 :=
  recordPositions_write pnm2 rid pos b2 positions _ h1 h2

theorem C5_witness :
    dget ((dget (recordPositions [((0 : Int), 'C')] "rd"
        (recordPositions [((0 : Int), 'A')] "rd" [] [0]) [0]) 0).getD [])
      "rd" = some 'C' :=
  C5_later_write_wins [] [0] 0 "rd" [(0, 'A')] [(0, 'C')] 'C' (by decide)
    (by decide)

/-- C9: a request with fewer than two positions is rejected by the leading
assert before any state is built: `joined_counts` returns the assertion
error and no counts. -/
theorem C9_too_few_positions_rejected (reads : List AlnRead)
    (positions : List Int) (min_mq : Int) (h : positions.length < 2) :
    joined_counts reads positions min_mq = .error "AssertionError" := by
  have hne : ¬(2 ≤ positions.length ∧ ∀ p ∈ positions, 0 ≤ p) := by
    intro hc
    exact absurd hc.1 (by omega)
  simp [joined_counts, hne]

theorem C9_witness :
    joined_counts [] [0] 13 = .error "AssertionError" :=
  C9_too_few_positions_rejected [] [0] 13 (by decide)

/-- C10: the LogicalReadId derivation succeeds exactly for query names with
at least two characters; for shorter names the unconditional indexing of
the character two before the end fails (Python IndexError, the `none`
case). -/
theorem C10_logical_id_domain (qname : String) :
    (deriveLogicalId qname).isSome ↔ 2 ≤ qname.length := by
  unfold deriveLogicalId
  by_cases h : 2 ≤ qname.length
  · rw [if_pos h]
    by_cases h2 : qname.data.getD (qname.length - 2) '?' ∈ ['.', '/', '#']
    · rw [if_pos h2]
      simp [h]
    · rw [if_neg h2]
      simp [h]
  · rw [if_neg h]
    simp [h]

/-- C2: for a processed (mapped) record the rejection checks fire in the
fixed order duplicate, anomalous pair, qc-fail, secondary, low mapping
quality; the first firing check determines the reason, the record then
increments exactly that reason's counter (the others and the observer map
unchanged) and skips the rest of the loop body; an accepted record
increments no rejection counter. -/
theorem C2_rejection_precedence (min_mq : Int) (positions : List Int)
    (st : ScanState) (r : AlnRead) (hm : r.is_unmapped = false) :
    (∀ reason, rejectReason min_mq r = some reason →
        processRead min_mq positions st r =
          .ok { st with rej := tally st.rej reason } ∧
        ∀ q, counterOf (tally st.rej reason) q =
          counterOf st.rej q + (if q = reason then 1 else 0)) ∧
    (rejectReason min_mq r = some .duplicate ↔ r.is_duplicate = true) ∧
    (rejectReason min_mq r = some .anomalous_pair ↔
      (r.is_duplicate = false ∧ r.is_paired = true ∧
        r.is_proper_pair = false)) ∧
    (rejectReason min_mq r = some .qc_fail ↔
      (r.is_duplicate = false ∧
        (r.is_paired = false ∨ r.is_proper_pair = true) ∧
        r.is_qcfail = true)) ∧
    (rejectReason min_mq r = some .secondary ↔
      (r.is_duplicate = false ∧
        (r.is_paired = false ∨ r.is_proper_pair = true) ∧
        r.is_qcfail = false ∧ r.is_secondary = true)) ∧
    (rejectReason min_mq r = some .low_mapping_quality ↔
      (r.is_duplicate = false ∧
        (r.is_paired = false ∨ r.is_proper_pair = true) ∧
        r.is_qcfail = false ∧ r.is_secondary = false ∧
        r.mapq < min_mq)) ∧
    (rejectReason min_mq r = none →
      ∀ st1, processRead min_mq positions st r = .ok st1 →
        st1.rej = st.rej) := by
  refine ⟨?_, ?_, ?_, ?_, ?_, ?_, ?_⟩
  · intro reason hr
    refine ⟨by simp [processRead, hm, hr], ?_⟩
    intro q
    cases reason <;> cases q <;> simp [tally, counterOf]
  · cases hd : r.is_duplicate <;>
      simp [rejectReason, hd] <;> split_ifs <;> simp_all
  · cases hd : r.is_duplicate <;> cases hp : r.is_paired <;>
      cases hpp : r.is_proper_pair <;>
      simp [rejectReason, hd, hp, hpp] <;> split_ifs <;> simp_all
  · cases hd : r.is_duplicate <;> cases hp : r.is_paired <;>
      cases hpp : r.is_proper_pair <;> cases hq2 : r.is_qcfail <;>
      simp [rejectReason, hd, hp, hpp, hq2] <;> split_ifs <;> simp_all
  · cases hd : r.is_duplicate <;> cases hp : r.is_paired <;>
      cases hpp : r.is_proper_pair <;> cases hq2 : r.is_qcfail <;>
      cases hs2 : r.is_secondary <;>
      simp [rejectReason, hd, hp, hpp, hq2, hs2] <;> split_ifs <;> simp_all
  · cases hd : r.is_duplicate <;> cases hp : r.is_paired <;>
      cases hpp : r.is_proper_pair <;> cases hq2 : r.is_qcfail <;>
      cases hs2 : r.is_secondary <;>
      simp [rejectReason, hd, hp, hpp, hq2, hs2] <;> split_ifs <;> simp_all
  · intro hrn st1 hok
    simp only [processRead, hm, Bool.false_eq_true, if_false, hrn] at hok
    cases hdl : deriveLogicalId r.qname <;> rw [hdl] at hok
    · cases hok
    · cases hok
      rfl

theorem C2_witness :
    processRead 13 [] ScanState.init exDup =
      .ok { ScanState.init with rej := tally ScanState.init.rej .duplicate } :=
  ((C2_rejection_precedence 13 [] ScanState.init exDup rfl).1 .duplicate
    rfl).1

theorem joined_counts_ok (reads : List AlnRead) (positions : List Int)
    (min_mq : Int) (res : JoinedResult)
    (h : joined_counts reads positions min_mq = .ok res) :
    ∃ st, scanReads min_mq positions ScanState.init reads = .ok st ∧
      overlappingAll st.pos_overlap positions = .ok res.overlapping_all ∧
      res.rej = st.rej ∧ res.pos_overlap = st.pos_overlap ∧
      res.counts =
        buildCounts st.pos_overlap positions [] res.overlapping_all := by
  unfold joined_counts at h
  by_cases hc : 2 ≤ positions.length ∧ ∀ p ∈ positions, 0 ≤ p
  · rw [if_pos hc] at h
    cases hs : scanReads min_mq positions ScanState.init reads <;>
      rw [hs] at h
    · cases h
    · rename_i st
      cases ho : overlappingAll st.pos_overlap positions <;>
        simp only [ho] at h
      · cases h
      · rename_i l
        cases h
        exact ⟨st, rfl, ho, rfl, rfl, rfl⟩
  · rw [if_neg hc] at h
    cases h

theorem buildCounts_sum (po : PosOverlap) (positions : List Int)
    (l : List String) (counts : List (String × Nat)) :
    sumVals (buildCounts po positions counts l) =
      sumVals counts + l.length := by
  induction l generalizing counts with
  | nil => simp [buildCounts]
  | cons rid rest ih =>
    rw [buildCounts, ih, sumVals_bump]
    simp only [List.length_cons]
    omega

/-- C6: for every completed run, the sum of the values of the returned count
table equals the number of logical read ids in `overlapping_all`. -/
theorem C6_total_eq_overlapping (reads : List AlnRead)
    (positions : List Int) (min_mq : Int) (res : JoinedResult)
    (h : joined_counts reads positions min_mq = .ok res) :
    sumVals res.counts = res.overlapping_all.length := by
  rcases joined_counts_ok reads positions min_mq res h with
    ⟨st, _, _, _, _, hcounts⟩
  rw [hcounts, buildCounts_sum]
  simp [sumVals]

theorem C6_witness :
    sumVals [("AC", 1)] = List.length ["rd"] :=
  C6_total_eq_overlapping [exRead2] [0, 1] 13
    ⟨⟨0, 0, 0, 0, 0⟩, [(0, [("rd", 'A')]), (1, [("rd", 'C')])], ["rd"],
      [("AC", 1)]⟩ rfl

theorem jointKey_length (po : PosOverlap) (positions : List Int)
    (rid : String) :
    (jointKey po positions rid).length = positions.length := by
  show (positions.map _).length = positions.length
  simp

theorem mem_dkeys_buildCounts (po : PosOverlap) (positions : List Int)
    (l : List String) (counts : List (String × Nat)) (k : String)
    (h : k ∈ dkeys (buildCounts po positions counts l)) :
    k ∈ dkeys counts ∨ ∃ rid ∈ l, k = jointKey po positions rid := by
  induction l generalizing counts with
  | nil => exact Or.inl h
  | cons rid rest ih =>
    rw [buildCounts] at h
    rcases ih _ h with h1 | h1
    · simp only [bump] at h1
      rcases mem_dkeys_upsert h1 with h2 | h2
      · exact Or.inr ⟨rid, List.mem_cons_self _ _, h2⟩
      · exact Or.inl h2
    · rcases h1 with ⟨rid2, hr2, hk2⟩
      exact Or.inr ⟨rid2, List.mem_cons_of_mem _ hr2, hk2⟩

/-- C7: every key of the returned count table is the concatenation, in
request order, of the base observed at each requested position, so its
length is the number of requested positions. -/
theorem C7_key_length (reads : List AlnRead) (positions : List Int)
    (min_mq : Int) (res : JoinedResult)
    (h : joined_counts reads positions min_mq = .ok res) :
    ∀ k ∈ dkeys res.counts, k.length = positions.length := by
  intro k hk
  rcases joined_counts_ok reads positions min_mq res h with
    ⟨st, _, _, _, _, hcounts⟩
  rw [hcounts] at hk
  rcases mem_dkeys_buildCounts _ _ _ _ _ hk with h1 | h1
  · simp [dkeys] at h1
  · rcases h1 with ⟨rid, _, hk2⟩
    rw [hk2, jointKey_length]

theorem C7_witness :
    String.length "AC" = List.length ([0, 1] : List Int) :=
  C7_key_length [exRead2] [0, 1] 13
    ⟨⟨0, 0, 0, 0, 0⟩, [(0, [("rd", 'A')]), (1, [("rd", 'C')])], ["rd"],
      [("AC", 1)]⟩ rfl "AC" (by decide)

theorem interAll_error (po : PosOverlap) (pos : Int) (acc : List String)
    (rest : List Int) (hmem : pos ∈ rest) (hget : dget po pos = none) :
    interAll po acc rest = .error "KeyError" := by
  induction rest generalizing acc with
  | nil => cases hmem
  | cons q rest2 ih =>
    rw [interAll]
    cases hq : dget po q
    · rfl
    · rename_i m
      have hpos2 : pos ∈ rest2 := by
        rcases List.mem_cons.mp hmem with h1 | h1
        · subst h1
          rw [hget] at hq
          cases hq
        · exact h1
      exact ih _ hpos2

theorem overlappingAll_error (po : PosOverlap) (pos : Int)
    (positions : List Int) (hmem : pos ∈ positions)
    (hget : dget po pos = none) :
    overlappingAll po positions = .error "KeyError" := by
  cases positions with
  | nil => cases hmem
  | cons p rest =>
    rw [overlappingAll]
    cases hp : dget po p
    · rfl
    · rename_i m
      have hpos2 : pos ∈ rest := by
        rcases List.mem_cons.mp hmem with h1 | h1
        · subst h1
          rw [hget] at hp
          cases hp
        · exact h1
      exact interAll_error po pos _ rest hpos2 hget

/-- C1 counterexample: one accepted read covering position 0 but not
position 5; the run over positions [0, 5] raises KeyError instead of
returning zero total and an empty table. -/
theorem C1_counterexample :
    joined_counts [exRead1] [0, 5] 13 = .error "KeyError" := by rfl

/-- C1 (amended): if some requested position's observer map is empty (the
position has no entry in `pos_overlap`), `joined_counts` raises a KeyError
on the intersection lookup instead of returning zero total and an empty
table. -/
theorem C1_empty_position_raises (reads : List AlnRead)
    (positions : List Int) (min_mq : Int) (st : ScanState) (pos : Int)
    (hlen : 2 ≤ positions.length) (hpos : ∀ p ∈ positions, 0 ≤ p)
    (hscan : scanReads min_mq positions ScanState.init reads = .ok st)
    (hmem : pos ∈ positions) (hget : dget st.pos_overlap pos = none) :
    joined_counts reads positions min_mq = .error "KeyError" := by
  unfold joined_counts
  rw [if_pos (And.intro hlen hpos)]
  simp only [hscan]
  simp only [overlappingAll_error st.pos_overlap pos positions hmem hget]

theorem C1_witness :
    joined_counts [exRead1] [(0 : Int), 5] 13 = .error "KeyError" :=
  C1_empty_position_raises [exRead1] [0, 5] 13
    ⟨RejCounts.init, [(0, [("rd", 'A')])]⟩ 5 (by decide) (by decide) rfl
    (by decide) rfl

theorem POInv_writeObs {po : PosOverlap} (h : POInv po) (pos : Int)
    (rid : String) (b : Char) : POInv (writeObs po pos rid b) := by
  obtain ⟨houter, hinner⟩ := h
  constructor
  · exact nodupKeys_upsert houter _ _
  · intro kv hkv
    rcases mem_upsert hkv with h1 | h1
    · rw [h1]
      show nodupKeys (upsert ((dget po pos).getD []) rid b)
      cases hg : dget po pos
      · exact nodupKeys_upsert (by simp [nodupKeys, dkeys]) _ _
      · rename_i m
        exact nodupKeys_upsert (hinner (pos, m) (dget_mem hg)) _ _
    · exact hinner kv h1

theorem POInv_recordPositions (pnm : List (Int × Char)) (rid : String)
    (ps : List Int) (po : PosOverlap) (h : POInv po) :
    POInv (recordPositions pnm rid po ps) := by
  induction ps generalizing po with
  | nil => exact h
  | cons q rest ih =>
    rw [recordPositions]
    apply ih
    cases hg : dget pnm q
    · exact h
    · exact POInv_writeObs h q rid _

theorem POInv_processRead (min_mq : Int) (positions : List Int)
    (st st1 : ScanState) (r : AlnRead) (h : POInv st.pos_overlap)
    (hok : processRead min_mq positions st r = .ok st1) :
    POInv st1.pos_overlap := by
  unfold processRead at hok
  by_cases hm : r.is_unmapped = true
  · rw [if_pos hm] at hok
    cases hok
  · rw [if_neg hm] at hok
    cases hr : rejectReason min_mq r <;> rw [hr] at hok
    · cases hdl : deriveLogicalId r.qname <;> rw [hdl] at hok
      · cases hok
      · cases hok
        exact POInv_recordPositions _ _ _ _ h
    · cases hok
      exact h

theorem POInv_scanReads (min_mq : Int) (positions : List Int)
    (reads : List AlnRead) (st st1 : ScanState) (h : POInv st.pos_overlap)
    (hok : scanReads min_mq positions st reads = .ok st1) :
    POInv st1.pos_overlap := by
  induction reads generalizing st with
  | nil =>
    rw [scanReads] at hok
    exact (Except.ok.inj hok) ▸ h
  | cons r rest ih =>
    rw [scanReads] at hok
    cases hp : processRead min_mq positions st r <;> rw [hp] at hok
    · simp at hok
    · rename_i st2
      exact ih st2 (POInv_processRead _ _ _ _ _ h hp) hok

theorem nodup_subset_length {l1 l2 : List String} (h : l1.Nodup)
    (hs : l1 ⊆ l2) : l1.length ≤ l2.length := by
  calc l1.length = l1.toFinset.card := (List.toFinset_card_of_nodup h).symm
    _ ≤ l2.toFinset.card := Finset.card_le_card (by
        intro x hx
        simp only [List.mem_toFinset] at hx ⊢
        exact hs hx)
    _ ≤ l2.length := l2.toFinset_card_le

theorem filter_dmem_subset (acc : List String)
    (m : List (String × Char)) :
    (acc.filter fun rid => dmem m rid) ⊆ dkeys m := by
  intro x hx
  have hx2 : dmem m x = true := List.of_mem_filter hx
  rw [dmem] at hx2
  cases hg : dget m x
  · rw [hg] at hx2
    cases hx2
  · exact mem_dkeys.mpr ⟨_, dget_mem hg⟩

theorem interAll_spec (po : PosOverlap)
    (rest : List Int) (acc : List String) (l : List String)
    (hnd : acc.Nodup) (hok : interAll po acc rest = .ok l) :
    l.Nodup ∧ l.length ≤ acc.length ∧
      ∀ pos ∈ rest, l.length ≤ ((dget po pos).getD []).length := by
  induction rest generalizing acc with
  | nil =>
    rw [interAll] at hok
    have hacc := Except.ok.inj hok
    subst hacc
    exact ⟨hnd, le_refl _, by intro pos hp; cases hp⟩
  | cons q rest2 ih =>
    rw [interAll] at hok
    cases hg : dget po q <;> rw [hg] at hok
    · simp at hok
    · rename_i m
      have hnd2 : (acc.filter fun rid => dmem m rid).Nodup := hnd.filter _
      rcases ih _ hnd2 hok with ⟨hl1, hl2, hl3⟩
      refine ⟨hl1, le_trans hl2 (List.length_filter_le _ _), ?_⟩
      intro pos hp
      rcases List.mem_cons.mp hp with h1 | h1
      · rw [h1, hg]
        simp only [Option.getD_some]
        calc l.length ≤ (acc.filter fun rid => dmem m rid).length := hl2
          _ ≤ (dkeys m).length :=
            nodup_subset_length hnd2 (filter_dmem_subset acc m)
          _ = m.length := by simp [dkeys]
      · exact hl3 pos h1

theorem overlappingAll_spec (po : PosOverlap) (hpo : POInv po)
    (positions : List Int) (l : List String)
    (hok : overlappingAll po positions = .ok l) :
    ∀ pos ∈ positions, l.length ≤ ((dget po pos).getD []).length := by
  cases positions with
  | nil =>
    intro pos hp
    cases hp
  | cons p rest =>
    rw [overlappingAll] at hok
    cases hg : dget po p <;> rw [hg] at hok
    · simp at hok
    · rename_i m0
      have hnd0 : (dkeys m0).Nodup := hpo.2 (p, m0) (dget_mem hg)
      rcases interAll_spec po rest (dkeys m0) l hnd0 hok with
        ⟨_, hl2, hl3⟩
      intro pos hp
      rcases List.mem_cons.mp hp with h1 | h1
      · rw [h1, hg]
        simp only [Option.getD_some]
        calc l.length ≤ (dkeys m0).length := hl2
          _ = m0.length := by simp [dkeys]
      · exact hl3 pos h1

/-- C8: for every completed run, the number of logical read ids in
`overlapping_all` is at most each requested position's observer-map size
(hence at most the minimum over the requested positions). -/
theorem C8_intersection_bound (reads : List AlnRead)
    (positions : List Int) (min_mq : Int) (res : JoinedResult)
    (h : joined_counts reads positions min_mq = .ok res) :
    ∀ pos ∈ positions,
      res.overlapping_all.length ≤
        ((dget res.pos_overlap pos).getD []).length := by
  rcases joined_counts_ok reads positions min_mq res h with
    ⟨st, hscan, hov, _, hpo, _⟩
  have hinit : POInv ScanState.init.pos_overlap := by
    constructor
    · simp [nodupKeys, dkeys, ScanState.init]
    · intro kv hkv
      cases hkv
  have hinv : POInv st.pos_overlap :=
    POInv_scanReads _ _ _ _ _ hinit hscan
  intro pos hp
  rw [hpo]
  exact overlappingAll_spec st.pos_overlap hinv positions
    res.overlapping_all hov pos hp

theorem C8_witness :
    List.length ["rd"] ≤ List.length [("rd", 'A')] :=
  C8_intersection_bound [exRead2] [0, 1] 13
    ⟨⟨0, 0, 0, 0, 0⟩, [(0, [("rd", 'A')]), (1, [("rd", 'C')])], ["rd"],
      [("AC", 1)]⟩ rfl 0 (by decide)
